import Mathlib

/-!
Shallow embedding of the QueryRunner repository (Go): a bounded-concurrency
batch query runner.

The embedding covers:
* the result/error data model of `main.go` (`SearchHit`, `SearchResult`,
  `QueryResult`, and the distinct error cases produced by `performSearch`);
* `performSearch` (main.go:65-103): its HTTP transport is a black box, so the
  outcome of the one `client.Do` round trip is a parameter (`DoOutcome`), as is
  the JSON decoding of the body; the control flow around them is translated
  line by line;
* `RunBatchSearch` (main.go:111-149): the concurrent dispatch loop is embedded
  as a small-step state machine.  A `Choice` is one atomic scheduler event:
  `launch` models the main loop acquiring an admission slot
  (`rateLimiter <- struct{}{}`, main.go:122) and spawning the goroutine for the
  next input position (admission happens strictly in input order, exactly as
  the `for i, query := range queries` loop does); `complete j` models goroutine
  `j` finishing its `performSearch` call, writing `results[j]`, bumping exactly
  one of the two atomic counters, and releasing its slot
  (main.go:124-143); `cancel` models the shared context becoming cancelled.
  Quantifying over all choice sequences quantifies over all interleavings.
  A unit whose `performSearch` runs under a cancelled context fails inside
  `client.Do` with a "context canceled" error, wrapped by main.go:84 into the
  "failed to execute request" case; `unitOutcome` reflects this.
* `makeQueries` / `GenerateQueries` (query.go): the random index drawn by
  `rand.Intn(len(locations))` is modelled by an arbitrary stream
  `pick : Nat → Nat` taken modulo the pool size, and the two Go panics
  (`rand.Intn` on an empty pool, indexing `coords[0]`/`coords[1]` on a short
  coordinate slice) are modelled by returning `none`.

Counters are Go `int64` values that are only ever incremented, at most once
per input position, so they stay far below 2^63 and are embedded as `Nat`.
-/

/-- Arbitrary JSON value, used for the `Status interface{}` field of
`SearchResult` (main.go:36). -/
inductive JsonValue where
  | null : JsonValue
  | jbool : Bool → JsonValue
  | jnum : Float → JsonValue
  | jstr : String → JsonValue
  | jarr : List JsonValue → JsonValue
  | jobj : List (String × JsonValue) → JsonValue

/-- `SearchHit` (main.go:28-33).  `Fields json.RawMessage` is a raw byte
sequence, embedded as an optional string (`omitempty`). -/
structure SearchHit where
  index : String
  id : String
  score : Float
  fields : Option String

/-- `SearchResult` (main.go:35-41). -/
structure SearchResult where
  status : JsonValue
  total : Int
  hits : List SearchHit
  took : Int
  maxScore : Float

/-- The distinct error values `performSearch` can return (main.go:65-103).
In Go each case is a distinct `fmt.Errorf` message; here each is a distinct
constructor carrying the same information. -/
inductive ErrorDetail where
  /-- "failed to create payload: %v" (main.go:70; unreachable, since
  `createSearchPayload` never fails). -/
  | payloadFailed : String → ErrorDetail
  /-- "failed to create request: %v" (main.go:75). -/
  | requestFailed : String → ErrorDetail
  /-- "failed to execute request: %v" (main.go:84); this is also the case a
  cancelled context produces, since `client.Do` then fails. -/
  | executeFailed : String → ErrorDetail
  /-- "failed to read response: %v" (main.go:90). -/
  | readFailed : String → ErrorDetail
  /-- "server returned status %d: %s" (main.go:94). -/
  | serverStatus : Nat → String → ErrorDetail
  /-- "failed to parse response: %v" (main.go:99). -/
  | parseFailed : String → ErrorDetail
deriving DecidableEq

/-- The outcome of the single HTTP round trip inside `performSearch`:
request construction, `client.Do`, and reading the body are external effects,
so the environment supplies which of the four things happened. -/
inductive DoOutcome where
  /-- `http.NewRequestWithContext` failed (main.go:73-76). -/
  | reqError : String → DoOutcome
  /-- `bs.client.Do(req)` failed (main.go:82-85). -/
  | netError : String → DoOutcome
  /-- `ioutil.ReadAll(resp.Body)` failed (main.go:88-91). -/
  | readError : String → DoOutcome
  /-- A response arrived with the given status code and body. -/
  | response : Nat → String → DoOutcome

/-- `createSearchPayload` (main.go:61-63): returns the query bytes and never
fails. -/
def createSearchPayload (query : String) : Except String String :=
  Except.ok query

/-- `performSearch` (main.go:65-103).  `outcome` is what the HTTP transport
did for this call; `decode` is `json.Unmarshal` into `SearchResult`. -/
def performSearch (outcome : DoOutcome)
    (decode : String → Except String SearchResult) (query : String) :
    Except ErrorDetail SearchResult :=
  match createSearchPayload query with
  | Except.error e => Except.error (ErrorDetail.payloadFailed e)
  | Except.ok _payload =>
    match outcome with
    | DoOutcome.reqError m => Except.error (ErrorDetail.requestFailed m)
    | DoOutcome.netError m => Except.error (ErrorDetail.executeFailed m)
    | DoOutcome.readError m => Except.error (ErrorDetail.readFailed m)
    | DoOutcome.response status body =>
      if status ≠ 200 then
        Except.error (ErrorDetail.serverStatus status body)
      else
        match decode body with
        | Except.error m => Except.error (ErrorDetail.parseFailed m)
        | Except.ok result => Except.ok result

/-- `QueryResult` (main.go:105-109): `Result` and `Error` are nilable
pointers in Go, embedded as options. -/
structure QueryResult where
  queryIndex : Nat
  result : Option SearchResult
  error : Option ErrorDetail

/-- One atomic scheduler event in a run of `RunBatchSearch`
(main.go:111-149). -/
inductive Choice where
  /-- The main loop acquires an admission slot and spawns the goroutine for
  the next input position (main.go:120-124). -/
  | launch : Choice
  /-- Goroutine `j` finishes its `performSearch` call, records its outcome
  and releases its slot (main.go:124-143). -/
  | complete : Nat → Choice
  /-- The shared context fires (becomes cancelled). -/
  | cancel : Choice
deriving DecidableEq

/-- The shared state of one `RunBatchSearch` invocation: the loop position,
the set of admitted-but-unfinished goroutines, the `results` slice, the two
atomic counters, the number of `performSearch` invocations that have
returned, and the context's cancellation flag. -/
structure RunState where
  nextToLaunch : Nat
  inFlight : List Nat
  results : List (Option QueryResult)
  successCount : Nat
  failureCount : Nat
  callCount : Nat
  cancelled : Bool

/-- The state at entry of `RunBatchSearch` (main.go:112-118):
`results = make([]QueryResult, len(queries))`, both counters zero, no
goroutines; `cancelled` is the state of the caller-supplied context. -/
def initState (queries : List String) (cancelled : Bool) : RunState :=
  { nextToLaunch := 0
    inFlight := []
    results := List.replicate queries.length none
    successCount := 0
    failureCount := 0
    callCount := 0
    cancelled := cancelled }

/-- The value goroutine `j` gets back from `bs.performSearch`
(main.go:128): under a cancelled context `client.Do` fails with a
context-cancellation error (main.go:82-85); otherwise the outcome is a
function `call` of the query blob, the spec's black-box unit of work
standing for `performSearch` with its HTTP environment fixed. -/
def unitOutcome (call : String → Except ErrorDetail SearchResult)
    (cancelled : Bool) (q : String) : Except ErrorDetail SearchResult :=
  if cancelled then
    Except.error (ErrorDetail.executeFailed "context canceled")
  else call q

/-- Goroutine `j` finishing (main.go:128-142): on error, bump
`failureCount` and store a `QueryResult` with only `Error` set; on success,
bump `successCount` and store one with only `Result` set; either way the
slot is released (`<-rateLimiter`, main.go:126) and one more
`performSearch` call has returned. -/
def completeUnit (queries : List String)
    (call : String → Except ErrorDetail SearchResult) (j : Nat)
    (s : RunState) : RunState :=
  match unitOutcome call s.cancelled (queries.getD j "") with
  | Except.error e =>
    { s with
      inFlight := s.inFlight.erase j
      callCount := s.callCount + 1
      failureCount := s.failureCount + 1
      results := s.results.set j (some { queryIndex := j, result := none, error := some e }) }
  | Except.ok r =>
    { s with
      inFlight := s.inFlight.erase j
      callCount := s.callCount + 1
      successCount := s.successCount + 1
      results := s.results.set j (some { queryIndex := j, result := some r, error := none }) }

/-- One step of the dispatcher.  `launch` is enabled while inputs remain and
a slot is free (`rateLimiter <- struct{}{}` blocks otherwise, and the loop
never consults the context); `complete j` is enabled while goroutine `j` is
in flight; `cancel` sets the context flag.  `none` means the event cannot
happen in state `s`. -/
def step (queries : List String) (limit : Nat)
    (call : String → Except ErrorDetail SearchResult) (c : Choice)
    (s : RunState) : Option RunState :=
  match c with
  | Choice.launch =>
    if s.nextToLaunch < queries.length ∧ s.inFlight.length < limit then
      some { s with
             nextToLaunch := s.nextToLaunch + 1
             inFlight := s.inFlight ++ [s.nextToLaunch] }
    else none
  | Choice.complete j =>
    if j ∈ s.inFlight then some (completeUnit queries call j s) else none
  | Choice.cancel => some { s with cancelled := true }

/-- Run a sequence of scheduler events; `none` if some event is not enabled
when its turn comes. -/
def exec (queries : List String) (limit : Nat)
    (call : String → Except ErrorDetail SearchResult) :
    List Choice → RunState → Option RunState
  | [], s => some s
  | c :: cs, s =>
    match step queries limit call c s with
    | none => none
    | some s2 => exec queries limit call cs s2

/-- `RunBatchSearch` returns once the loop has issued every input and
`wg.Wait()` has seen every goroutine finish (main.go:146). -/
def IsTerminal (queries : List String) (s : RunState) : Prop :=
  s.nextToLaunch = queries.length ∧ s.inFlight = []

instance (queries : List String) (s : RunState) :
    Decidable (IsTerminal queries s) :=
  inferInstanceAs (Decidable (_ ∧ _))

/-- The `QueryResult` a finished unit stores for position `j`, as a function
of its `performSearch` outcome (main.go:129-142). -/
def outcomeToResult (j : Nat) :
    Except ErrorDetail SearchResult → QueryResult
  | Except.ok r => { queryIndex := j, result := some r, error := none }
  | Except.error e => { queryIndex := j, result := none, error := some e }

/-- The `geometry` object inside a `Root` sample (query.go:15-17). -/
structure Geometry where
  coordinates : List Float

/-- The `bklctrcb` object inside a `Root` sample (query.go:14-19). -/
structure Bklctrcb where
  geometry : Geometry
  relationship : String

/-- `Root` (query.go:13-20): one sample parsed from `long-lat.json`. -/
structure Root where
  bklctrcb : Bklctrcb

/-- `LocationQuery` (query.go:22-31), flattened: the JSON nesting
`Query.Location.{Lon,Lat}` / `Query.{Distance,Field}` carries no data beyond
these four fields. -/
structure LocationQuery where
  lon : Float
  lat : Float
  distance : String
  field : String

/-- `RelationshipQuery` (query.go:33-38), flattened likewise. -/
structure RelationshipQuery where
  matchVal : String
  field : String

/-- One element of the `Conjuncts []interface{}` slice built at
query.go:72-85: either the location map or the match map. -/
inductive ConjunctItem where
  | geo : Float → Float → String → String → ConjunctItem
  | matched : String → String → ConjunctItem

/-- `ConjunctQuery` (query.go:40-44). -/
structure ConjunctQuery where
  conjuncts : List ConjunctItem

/-- The three query shapes `makeQueries` appends per iteration
(query.go:56-86). -/
inductive QueryShape where
  | loc : LocationQuery → QueryShape
  | rel : RelationshipQuery → QueryShape
  | conj : ConjunctQuery → QueryShape

/-- The three queries one loop iteration of `makeQueries` builds from the
selected sample (query.go:56-86).  Reading `coords[0]` and `coords[1]`
panics when the coordinate slice is shorter than 2, which is `none` here. -/
def queryTriple (r : Root) : Option (List QueryShape) :=
  match r.bklctrcb.geometry.coordinates with
  | c0 :: c1 :: _ =>
    some
      [QueryShape.loc
        { lon := c0, lat := c1, distance := "100mi",
          field := "bklctrcb.geometry.coordinates" },
       QueryShape.rel
        { matchVal := r.bklctrcb.relationship,
          field := "bklctrcb.relationship" },
       QueryShape.conj
        { conjuncts :=
            [ConjunctItem.geo c0 c1 "100mi" "bklctrcb.geometry.coordinates",
             ConjunctItem.matched r.bklctrcb.relationship
               "bklctrcb.relationship"] }]
  | _ => none

/-- The loop of `makeQueries` (query.go:50-87) starting at iteration `i`
with `n` iterations left.  `pick` is the stream of values drawn by
`rand.Intn`, reduced modulo the pool size (and `rand.Intn(0)` panics,
which is `none` here). -/
def makeQueriesFrom (locations : List Root) (pick : Nat → Nat) :
    Nat → Nat → Option (List QueryShape)
  | _, 0 => some []
  | i, Nat.succ k =>
    if h : 0 < locations.length then
      match queryTriple
          (locations.get ⟨pick i % locations.length, Nat.mod_lt _ h⟩) with
      | none => none
      | some triple =>
        match makeQueriesFrom locations pick (i + 1) k with
        | none => none
        | some rest => some (triple ++ rest)
    else none

/-- `makeQueries` (query.go:47-90). -/
def makeQueries (locations : List Root) (pick : Nat → Nat) (n : Nat) :
    Option (List QueryShape) :=
  makeQueriesFrom locations pick 0 n

/-- `GenerateQueries` (query.go:92-125).  Reading and parsing
`long-lat.json` and writing `queries.json` are file-system effects; the
parsed pool is the `locations` parameter.  The requested count `n` is
passed on as `n / 3` — Go integer division, with no divisibility check
(query.go:109). -/
def GenerateQueries (locations : List Root) (pick : Nat → Nat) (n : Nat) :
    Option (List QueryShape) :=
  makeQueries locations pick (n / 3)

/-- The race-free run invariant of `RunBatchSearch`: the `results` slice
keeps its length; the loop position never passes the input length; every
in-flight goroutine was launched earlier; the semaphore bounds the in-flight
set by `limit`; the two counters plus the in-flight units account for every
launched unit; `callCount` counts exactly the finished calls; and every
launched-and-finished position holds the `QueryResult` its goroutine wrote,
for the cancellation flag `b` it observed. -/
structure RunInv (queries : List String) (limit : Nat)
    (call : String → Except ErrorDetail SearchResult) (s : RunState) :
    Prop where
  resLen : s.results.length = queries.length
  nextLe : s.nextToLaunch ≤ queries.length
  flightLt : ∀ j ∈ s.inFlight, j < s.nextToLaunch
  flightCap : s.inFlight.length ≤ limit
  counters :
    s.successCount + s.failureCount + s.inFlight.length = s.nextToLaunch
  calls : s.callCount = s.successCount + s.failureCount
  slots : ∀ i, i < s.nextToLaunch → i ∉ s.inFlight →
    ∃ b, s.results.getD i none =
      some (outcomeToResult i (unitOutcome call b (queries.getD i "")))

theorem runInv_init (queries : List String) (limit : Nat)
    (call : String → Except ErrorDetail SearchResult) (b : Bool) :
    RunInv queries limit call (initState queries b) := by
  refine ⟨?_, ?_, ?_, ?_, ?_, ?_, ?_⟩ <;>
    simp [initState]

theorem completeUnit_nextToLaunch (queries : List String)
    (call : String → Except ErrorDetail SearchResult) (j : Nat)
    (s : RunState) :
    (completeUnit queries call j s).nextToLaunch = s.nextToLaunch := by
  unfold completeUnit
  cases unitOutcome call s.cancelled (queries.getD j "") <;> rfl

theorem completeUnit_inFlight (queries : List String)
    (call : String → Except ErrorDetail SearchResult) (j : Nat)
    (s : RunState) :
    (completeUnit queries call j s).inFlight = s.inFlight.erase j := by
  unfold completeUnit
  cases unitOutcome call s.cancelled (queries.getD j "") <;> rfl

theorem completeUnit_cancelled (queries : List String)
    (call : String → Except ErrorDetail SearchResult) (j : Nat)
    (s : RunState) :
    (completeUnit queries call j s).cancelled = s.cancelled := by
  unfold completeUnit
  cases unitOutcome call s.cancelled (queries.getD j "") <;> rfl

theorem completeUnit_results (queries : List String)
    (call : String → Except ErrorDetail SearchResult) (j : Nat)
    (s : RunState) :
    (completeUnit queries call j s).results =
      s.results.set j
        (some (outcomeToResult j
          (unitOutcome call s.cancelled (queries.getD j "")))) := by
  unfold completeUnit
  cases unitOutcome call s.cancelled (queries.getD j "") <;> rfl

theorem completeUnit_counterSum (queries : List String)
    (call : String → Except ErrorDetail SearchResult) (j : Nat)
    (s : RunState) :
    (completeUnit queries call j s).successCount +
        (completeUnit queries call j s).failureCount =
      s.successCount + s.failureCount + 1 := by
  unfold completeUnit
  cases unitOutcome call s.cancelled (queries.getD j "") with
  | error e => simp; omega
  | ok r => simp; omega

theorem completeUnit_oneCounter (queries : List String)
    (call : String → Except ErrorDetail SearchResult) (j : Nat)
    (s : RunState) :
    (completeUnit queries call j s).successCount = s.successCount ∨
      (completeUnit queries call j s).failureCount = s.failureCount := by
  unfold completeUnit
  cases unitOutcome call s.cancelled (queries.getD j "") with
  | error e => left; rfl
  | ok r => right; rfl

theorem completeUnit_callCount (queries : List String)
    (call : String → Except ErrorDetail SearchResult) (j : Nat)
    (s : RunState) :
    (completeUnit queries call j s).callCount = s.callCount + 1 := by
  unfold completeUnit
  cases unitOutcome call s.cancelled (queries.getD j "") <;> rfl

theorem step_runInv {queries : List String} {limit : Nat}
    {call : String → Except ErrorDetail SearchResult} {c : Choice}
    {s s2 : RunState} (hI : RunInv queries limit call s)
    (h : step queries limit call c s = some s2) :
    RunInv queries limit call s2 := by
  cases c with
  | launch =>
    simp only [step] at h
    split at h
    · rename_i hg
      obtain ⟨hnext, hcap⟩ := hg
      injection h with h
      subst h
      refine ⟨hI.resLen, by dsimp only; omega, ?_, ?_, ?_, hI.calls, ?_⟩
      · intro j hj
        dsimp only at hj ⊢
        rcases List.mem_append.mp hj with hj | hj
        · have := hI.flightLt j hj; omega
        · simp at hj; omega
      · dsimp only
        simp only [List.length_append, List.length_singleton]
        omega
      · dsimp only
        simp only [List.length_append, List.length_singleton]
        have := hI.counters; omega
      · intro i hi hni
        dsimp only at hi hni ⊢
        simp only [List.mem_append, List.mem_singleton] at hni
        push_neg at hni
        exact hI.slots i (by omega) hni.1
    · exact Option.noConfusion h
  | complete j =>
    simp only [step] at h
    split at h
    · rename_i hj
      injection h with h
      subst h
      have hjlt : j < s.nextToLaunch := hI.flightLt j hj
      have hjres : j < s.results.length := by
        have := hI.resLen; have := hI.nextLe; omega
      have hpos : 0 < s.inFlight.length := List.length_pos_of_mem hj
      have hsum := completeUnit_counterSum queries call j s
      refine ⟨?_, ?_, ?_, ?_, ?_, ?_, ?_⟩
      · rw [completeUnit_results, List.length_set]; exact hI.resLen
      · rw [completeUnit_nextToLaunch]; exact hI.nextLe
      · rw [completeUnit_inFlight, completeUnit_nextToLaunch]
        intro j2 hj2
        exact hI.flightLt j2 (List.mem_of_mem_erase hj2)
      · rw [completeUnit_inFlight]
        exact le_trans (List.erase_sublist j s.inFlight).length_le hI.flightCap
      · rw [completeUnit_inFlight, completeUnit_nextToLaunch,
          List.length_erase_of_mem hj]
        have := hI.counters; omega
      · rw [completeUnit_callCount]
        have := hI.calls; omega
      · rw [completeUnit_results, completeUnit_nextToLaunch,
          completeUnit_inFlight]
        intro i hi hni
        by_cases hij : i = j
        · subst hij
          refine ⟨s.cancelled, ?_⟩
          rw [List.getD_eq_getElem?_getD, List.getElem?_set_eq_of_lt _ hjres]
          rfl
        · have hnotfl : i ∉ s.inFlight := fun him =>
            hni ((List.mem_erase_of_ne hij).mpr him)
          obtain ⟨b, hb⟩ := hI.slots i hi hnotfl
          refine ⟨b, ?_⟩
          rw [List.getD_eq_getElem?_getD,
            List.getElem?_set_ne (Ne.symm hij),
            ← List.getD_eq_getElem?_getD]
          exact hb
    · exact Option.noConfusion h
  | cancel =>
    simp only [step] at h
    injection h with h
    subst h
    exact ⟨hI.resLen, hI.nextLe, hI.flightLt, hI.flightCap, hI.counters,
      hI.calls, hI.slots⟩

theorem exec_induct {queries : List String} {limit : Nat}
    {call : String → Except ErrorDetail SearchResult}
    (P : RunState → Prop)
    (hstep : ∀ c s s2, P s → step queries limit call c s = some s2 → P s2) :
    ∀ cs s s2, P s → exec queries limit call cs s = some s2 → P s2 := by
  intro cs
  induction cs with
  | nil =>
    intro s s2 hP hx
    injection hx with hx
    exact hx ▸ hP
  | cons c cs ih =>
    intro s s2 hP hx
    unfold exec at hx
    cases hs : step queries limit call c s with
    | none => rw [hs] at hx; exact Option.noConfusion hx
    | some s1 =>
      rw [hs] at hx
      exact ih s1 s2 (hstep c s s1 hP hs) hx

theorem exec_induct_nc {queries : List String} {limit : Nat}
    {call : String → Except ErrorDetail SearchResult}
    (P : RunState → Prop)
    (hstep : ∀ c s s2, c ≠ Choice.cancel → P s →
      step queries limit call c s = some s2 → P s2) :
    ∀ cs, Choice.cancel ∉ cs → ∀ s s2, P s →
      exec queries limit call cs s = some s2 → P s2 := by
  intro cs
  induction cs with
  | nil =>
    intro _ s s2 hP hx
    injection hx with hx
    exact hx ▸ hP
  | cons c cs ih =>
    intro hnc s s2 hP hx
    simp only [List.mem_cons] at hnc
    push_neg at hnc
    unfold exec at hx
    cases hs : step queries limit call c s with
    | none => rw [hs] at hx; exact Option.noConfusion hx
    | some s1 =>
      rw [hs] at hx
      exact ih hnc.2 s1 s2 (hstep c s s1 (fun he => hnc.1 he.symm) hP hs) hx

theorem runInv_of_exec {queries : List String} {limit : Nat}
    {call : String → Except ErrorDetail SearchResult} {b : Bool}
    {cs : List Choice} {s : RunState}
    (hx : exec queries limit call cs (initState queries b) = some s) :
    RunInv queries limit call s :=
  exec_induct (RunInv queries limit call)
    (fun _ _ _ hP hs => step_runInv hP hs) cs (initState queries b) s
    (runInv_init queries limit call b) hx

theorem unitOutcome_false (call : String → Except ErrorDetail SearchResult)
    (q : String) : unitOutcome call false q = call q := rfl

theorem unitOutcome_true (call : String → Except ErrorDetail SearchResult)
    (q : String) :
    unitOutcome call true q =
      Except.error (ErrorDetail.executeFailed "context canceled") := rfl

/-- In a run whose context never fires, every finished position holds
exactly the result of `call` on its own input. -/
def PureSlots (queries : List String)
    (call : String → Except ErrorDetail SearchResult) (s : RunState) :
    Prop :=
  s.cancelled = false ∧
    ∀ i, i < s.nextToLaunch → i ∉ s.inFlight →
      s.results.getD i none =
        some (outcomeToResult i (call (queries.getD i "")))

theorem step_pureSlots {queries : List String} {limit : Nat}
    {call : String → Except ErrorDetail SearchResult} {c : Choice}
    {s s2 : RunState} (hc : c ≠ Choice.cancel)
    (hI : RunInv queries limit call s)
    (hP : PureSlots queries call s)
    (h : step queries limit call c s = some s2) :
    PureSlots queries call s2 := by
  obtain ⟨hcf, hslots⟩ := hP
  cases c with
  | launch =>
    simp only [step] at h
    split at h
    · injection h with h
      subst h
      refine ⟨hcf, ?_⟩
      intro i hi hni
      dsimp only at hi hni ⊢
      simp only [List.mem_append, List.mem_singleton] at hni
      push_neg at hni
      exact hslots i (by omega) hni.1
    · exact Option.noConfusion h
  | complete j =>
    simp only [step] at h
    split at h
    · rename_i hj
      injection h with h
      subst h
      have hjres : j < s.results.length := by
        have := hI.flightLt j hj
        have := hI.resLen
        have := hI.nextLe
        omega
      refine ⟨by rw [completeUnit_cancelled]; exact hcf, ?_⟩
      rw [completeUnit_results, completeUnit_nextToLaunch,
        completeUnit_inFlight]
      intro i hi hni
      by_cases hij : i = j
      · subst hij
        rw [List.getD_eq_getElem?_getD, List.getElem?_set_eq_of_lt _ hjres,
          hcf, unitOutcome_false]
        rfl
      · have hnotfl : i ∉ s.inFlight := fun him =>
          hni ((List.mem_erase_of_ne hij).mpr him)
        rw [List.getD_eq_getElem?_getD,
          List.getElem?_set_ne (Ne.symm hij),
          ← List.getD_eq_getElem?_getD]
        exact hslots i hi hnotfl
    · exact Option.noConfusion h
  | cancel => exact absurd rfl hc

/-- In a run whose context was already cancelled at entry, the flag stays
set, no call ever succeeds, and every finished position holds the
cancellation-classified failure. -/
def CancelSlots (s : RunState) : Prop :=
  s.cancelled = true ∧ s.successCount = 0 ∧
    ∀ i, i < s.nextToLaunch → i ∉ s.inFlight →
      s.results.getD i none =
        some { queryIndex := i, result := none,
               error := some (ErrorDetail.executeFailed "context canceled") }

theorem step_cancelSlots {queries : List String} {limit : Nat}
    {call : String → Except ErrorDetail SearchResult} {c : Choice}
    {s s2 : RunState} (hI : RunInv queries limit call s)
    (hP : CancelSlots s) (h : step queries limit call c s = some s2) :
    CancelSlots s2 := by
  obtain ⟨hct, hsc, hslots⟩ := hP
  cases c with
  | launch =>
    simp only [step] at h
    split at h
    · injection h with h
      subst h
      refine ⟨hct, hsc, ?_⟩
      intro i hi hni
      dsimp only at hi hni ⊢
      simp only [List.mem_append, List.mem_singleton] at hni
      push_neg at hni
      exact hslots i (by omega) hni.1
    · exact Option.noConfusion h
  | complete j =>
    simp only [step] at h
    split at h
    · rename_i hj
      injection h with h
      subst h
      have hjres : j < s.results.length := by
        have := hI.flightLt j hj
        have := hI.resLen
        have := hI.nextLe
        omega
      have hout :
          unitOutcome call s.cancelled (queries.getD j "") =
            Except.error (ErrorDetail.executeFailed "context canceled") := by
        rw [hct, unitOutcome_true]
      refine ⟨by rw [completeUnit_cancelled]; exact hct, ?_, ?_⟩
      · show (completeUnit queries call j s).successCount = 0
        unfold completeUnit
        rw [hout]
        exact hsc
      · rw [completeUnit_results, completeUnit_nextToLaunch,
          completeUnit_inFlight]
        intro i hi hni
        by_cases hij : i = j
        · subst hij
          rw [List.getD_eq_getElem?_getD,
            List.getElem?_set_eq_of_lt _ hjres, hout]
          rfl
        · have hnotfl : i ∉ s.inFlight := fun him =>
            hni ((List.mem_erase_of_ne hij).mpr him)
          rw [List.getD_eq_getElem?_getD,
            List.getElem?_set_ne (Ne.symm hij),
            ← List.getD_eq_getElem?_getD]
          exact hslots i hi hnotfl
    · exact Option.noConfusion h
  | cancel =>
    simp only [step] at h
    injection h with h
    subst h
    exact ⟨rfl, hsc, hslots⟩

/-- The schedule that launches and immediately finishes positions
`k, k+1, ...` for `n` positions (one admitted unit at a time). -/
def seqFrom : Nat → Nat → List Choice
  | _, 0 => []
  | k, Nat.succ n => Choice.launch :: Choice.complete k :: seqFrom (k + 1) n

theorem exec_seqFrom {queries : List String} {limit : Nat}
    {call : String → Except ErrorDetail SearchResult} (hlim : 1 ≤ limit) :
    ∀ n k (s : RunState), s.nextToLaunch = k → s.inFlight = [] →
      k + n = queries.length →
      ∃ s2, exec queries limit call (seqFrom k n) s = some s2 ∧
        s2.nextToLaunch = queries.length ∧ s2.inFlight = [] := by
  intro n
  induction n with
  | zero =>
    intro k s h1 h2 h3
    exact ⟨s, rfl, by omega, h2⟩
  | succ n ih =>
    intro k s h1 h2 h3
    obtain ⟨nx, fl, res, sc, fc, cc, cb⟩ := s
    dsimp only at h1 h2
    subst h1
    subst h2
    have hcond : nx < queries.length ∧ ([] : List Nat).length < limit := by
      constructor
      · omega
      · simp only [List.length_nil]; omega
    have hstep1 : step queries limit call Choice.launch
        ⟨nx, [], res, sc, fc, cc, cb⟩ =
          some ⟨nx + 1, [nx], res, sc, fc, cc, cb⟩ := by
      simp only [step, if_pos hcond]
      rfl
    have hmem : nx ∈ ([nx] : List Nat) := List.mem_singleton_self nx
    have hstep2 : step queries limit call (Choice.complete nx)
        ⟨nx + 1, [nx], res, sc, fc, cc, cb⟩ =
          some (completeUnit queries call nx
            ⟨nx + 1, [nx], res, sc, fc, cc, cb⟩) := by
      simp only [step, if_pos hmem]
    obtain ⟨s3, hx, hn, hf⟩ := ih (nx + 1)
      (completeUnit queries call nx ⟨nx + 1, [nx], res, sc, fc, cc, cb⟩)
      (by rw [completeUnit_nextToLaunch])
      (by rw [completeUnit_inFlight]; exact List.erase_cons_head nx [])
      (by omega)
    refine ⟨s3, ?_, hn, hf⟩
    simp only [seqFrom, exec, hstep1, hstep2]
    exact hx

theorem exec_replicate_launch {queries : List String} {limit : Nat}
    {call : String → Except ErrorDetail SearchResult} :
    ∀ k (s : RunState), s.nextToLaunch + k ≤ queries.length →
      s.inFlight.length + k ≤ limit →
      ∃ s2,
        exec queries limit call (List.replicate k Choice.launch) s =
          some s2 ∧
        s2.inFlight.length = s.inFlight.length + k := by
  intro k
  induction k with
  | zero =>
    intro s h1 h2
    exact ⟨s, rfl, by omega⟩
  | succ k ih =>
    intro s h1 h2
    have hcond : s.nextToLaunch < queries.length ∧
        s.inFlight.length < limit := ⟨by omega, by omega⟩
    have hstep1 : step queries limit call Choice.launch s =
        some { s with
               nextToLaunch := s.nextToLaunch + 1
               inFlight := s.inFlight ++ [s.nextToLaunch] } := by
      simp only [step, if_pos hcond]
    obtain ⟨s2, hx, hlen⟩ := ih
      { s with
        nextToLaunch := s.nextToLaunch + 1
        inFlight := s.inFlight ++ [s.nextToLaunch] }
      (by dsimp only; omega)
      (by dsimp only; simp only [List.length_append, List.length_singleton]
          omega)
    refine ⟨s2, ?_, ?_⟩
    · rw [List.replicate_succ]
      simp only [exec, hstep1]
      exact hx
    · rw [hlen]
      dsimp only
      simp only [List.length_append, List.length_singleton]
      omega

/-- At a terminal state, every position has been launched and finished, so
the run invariant describes every slot. -/
theorem terminal_slots {queries : List String} {limit : Nat}
    {call : String → Except ErrorDetail SearchResult} {s : RunState}
    (hI : RunInv queries limit call s) (ht : IsTerminal queries s) :
    ∀ i, i < queries.length →
      ∃ b, s.results.getD i none =
        some (outcomeToResult i (unitOutcome call b (queries.getD i ""))) := by
  intro i hi
  obtain ⟨hn, hf⟩ := ht
  exact hI.slots i (by omega) (by rw [hf]; exact List.not_mem_nil i)

/-- A concrete unit-of-work function for witnesses: the endpoint always
answers 500. -/
def sampleCall : String → Except ErrorDetail SearchResult :=
  fun _ => Except.error (ErrorDetail.serverStatus 500 "boom")

/-- A concrete decoder for witnesses: the body never parses. -/
def sampleDecode : String → Except String SearchResult :=
  fun _ => Except.error "invalid character"

/-- C8: `performSearch` returns a non-200 status and a decode failure as
distinct `ErrorDetail` values rather than terminating abnormally: it
succeeds exactly when the transport delivered a status-200 response whose
body decodes; a non-200 status yields the `serverStatus` error, an
undecodable body the `parseFailed` error, a transport failure the
`executeFailed` error, and these cases are distinct values. -/
theorem performSearch_error_classification
    (outcome : DoOutcome) (decode : String → Except String SearchResult)
    (query : String) :
    ((∃ r, performSearch outcome decode query = Except.ok r) ↔
      (∃ body r, outcome = DoOutcome.response 200 body ∧
        decode body = Except.ok r))
    ∧ (∀ status body, status ≠ 200 →
        performSearch (DoOutcome.response status body) decode query =
          Except.error (ErrorDetail.serverStatus status body))
    ∧ (∀ body m, decode body = Except.error m →
        performSearch (DoOutcome.response 200 body) decode query =
          Except.error (ErrorDetail.parseFailed m))
    ∧ (∀ m, performSearch (DoOutcome.netError m) decode query =
        Except.error (ErrorDetail.executeFailed m))
    ∧ (∀ status body m,
        ErrorDetail.serverStatus status body ≠ ErrorDetail.parseFailed m) := by
  refine ⟨⟨?_, ?_⟩, ?_, ?_, ?_, ?_⟩
  · rintro ⟨r, hr⟩
    cases outcome with
    | reqError m => simp [performSearch, createSearchPayload] at hr
    | netError m => simp [performSearch, createSearchPayload] at hr
    | readError m => simp [performSearch, createSearchPayload] at hr
    | response status body =>
      simp only [performSearch, createSearchPayload] at hr
      split at hr
      · exact absurd hr (by simp)
      · rename_i h200
        push_neg at h200
        cases hd : decode body with
        | error m => rw [hd] at hr; exact absurd hr (by simp)
        | ok r2 =>
          rw [hd] at hr
          injection hr with hr
          exact ⟨body, r2, by rw [h200], hd⟩
  · rintro ⟨body, r, hob, hd⟩
    subst hob
    exact ⟨r, by simp [performSearch, createSearchPayload, hd]⟩
  · intro status body h
    simp only [performSearch, createSearchPayload]
    rw [if_pos h]
  · intro body m hd
    simp [performSearch, createSearchPayload, hd]
  · intro m
    rfl
  · intro status body m h
    exact ErrorDetail.noConfusion h

theorem performSearch_error_classification_witness :
    (500 ≠ 200) ∧
    performSearch (DoOutcome.response 500 "boom") sampleDecode "q" =
      Except.error (ErrorDetail.serverStatus 500 "boom") :=
  ⟨by decide,
   (performSearch_error_classification (DoOutcome.response 500 "boom")
     sampleDecode "q").2.1 500 "boom" (by decide)⟩

/-- A concrete two-query input for witnesses. -/
def sampleQueries : List String := ["a", "b"]

/-- A schedule that runs `sampleQueries` to completion one unit at a time. -/
def sampleSchedule : List Choice :=
  [Choice.launch, Choice.complete 0, Choice.launch, Choice.complete 1]

/-- The error `sampleCall` always returns. -/
def sampleErr : ErrorDetail := ErrorDetail.serverStatus 500 "boom"

/-- The terminal state of running `sampleSchedule` on `sampleQueries` with
`limit = 1` and `sampleCall`. -/
def sampleFinal : RunState :=
  { nextToLaunch := 2
    inFlight := []
    results := [some { queryIndex := 0, result := none, error := some sampleErr },
                some { queryIndex := 1, result := none, error := some sampleErr }]
    successCount := 0
    failureCount := 2
    callCount := 2
    cancelled := false }

/-- C1: for every input list and every `limit ≥ 1`, a terminating schedule
exists, and in every cancellation-free terminal run the `results` slice has
exactly one entry per input, and the entry at position `i` is the result of
applying the unit-of-work function to `queries[i]` — whatever order the
goroutines finished in. -/
theorem RunBatchSearch_position_fidelity
    (queries : List String) (limit : Nat)
    (call : String → Except ErrorDetail SearchResult) (hlim : 1 ≤ limit) :
    (∃ cs s, exec queries limit call cs (initState queries false) = some s ∧
      IsTerminal queries s)
    ∧ ∀ cs s, Choice.cancel ∉ cs →
        exec queries limit call cs (initState queries false) = some s →
        IsTerminal queries s →
        s.results.length = queries.length ∧
        ∀ i, i < queries.length →
          s.results.getD i none =
            some (outcomeToResult i (call (queries.getD i ""))) := by
  constructor
  · obtain ⟨s2, hx, hn, hf⟩ := @exec_seqFrom queries limit call hlim
      queries.length 0 (initState queries false) rfl rfl (by omega)
    exact ⟨seqFrom 0 queries.length, s2, hx, hn, hf⟩
  · intro cs s hnc hx ht
    have hP : RunInv queries limit call s ∧ PureSlots queries call s := by
      refine exec_induct_nc
        (fun t => RunInv queries limit call t ∧ PureSlots queries call t)
        ?_ cs hnc (initState queries false) s ⟨runInv_init queries limit call false, rfl, ?_⟩ hx
      · intro c t t2 hc hP hs
        exact ⟨step_runInv hP.1 hs, step_pureSlots hc hP.1 hP.2 hs⟩
      · intro i hi _
        simp [initState] at hi
    refine ⟨hP.1.resLen, ?_⟩
    intro i hi
    exact hP.2.2 i (by rw [ht.1]; omega)
      (by rw [ht.2]; exact List.not_mem_nil i)

theorem RunBatchSearch_position_fidelity_witness :
    (1 ≤ 1)
    ∧ Choice.cancel ∉ sampleSchedule
    ∧ exec sampleQueries 1 sampleCall sampleSchedule
        (initState sampleQueries false) = some sampleFinal
    ∧ IsTerminal sampleQueries sampleFinal
    ∧ sampleFinal.results.length = sampleQueries.length
    ∧ sampleFinal.results.getD 0 none =
        some (outcomeToResult 0 (sampleCall (sampleQueries.getD 0 ""))) :=
  ⟨by decide, by decide, rfl, by decide,
   ((RunBatchSearch_position_fidelity sampleQueries 1 sampleCall
       (by decide)).2 sampleSchedule sampleFinal (by decide) rfl
       (by decide)).1,
   ((RunBatchSearch_position_fidelity sampleQueries 1 sampleCall
       (by decide)).2 sampleSchedule sampleFinal (by decide) rfl
       (by decide)).2 0 (by decide)⟩

/-- C2: in every terminal run (cancelled or not) the two counters sum to
the input length, and each completing unit bumps exactly one of the two
counters by exactly one. -/
theorem RunBatchSearch_counter_sum
    (queries : List String) (limit : Nat)
    (call : String → Except ErrorDetail SearchResult) :
    (∀ (b : Bool) cs s,
        exec queries limit call cs (initState queries b) = some s →
        IsTerminal queries s →
        s.successCount + s.failureCount = queries.length)
    ∧ (∀ j s s2, step queries limit call (Choice.complete j) s = some s2 →
        s2.successCount + s2.failureCount =
          s.successCount + s.failureCount + 1
        ∧ (s2.successCount = s.successCount ∨
           s2.failureCount = s.failureCount)) := by
  constructor
  · intro b cs s hx ht
    have hI := runInv_of_exec hx
    have h1 := hI.counters
    rw [ht.1, ht.2] at h1
    simp only [List.length_nil] at h1
    omega
  · intro j s s2 hs
    simp only [step] at hs
    split at hs
    · injection hs with hs
      subst hs
      exact ⟨completeUnit_counterSum queries call j s,
        completeUnit_oneCounter queries call j s⟩
    · exact Option.noConfusion hs

theorem RunBatchSearch_counter_sum_witness :
    exec sampleQueries 1 sampleCall sampleSchedule
      (initState sampleQueries false) = some sampleFinal
    ∧ IsTerminal sampleQueries sampleFinal
    ∧ sampleFinal.successCount + sampleFinal.failureCount =
        sampleQueries.length :=
  ⟨rfl, by decide,
   (RunBatchSearch_counter_sum sampleQueries 1 sampleCall).1 false
     sampleSchedule sampleFinal rfl (by decide)⟩

/-- The state after launching the first unit of `sampleQueries` with
`limit = 2`. -/
def sampleMid : RunState :=
  { nextToLaunch := 1
    inFlight := [0]
    results := [none, none]
    successCount := 0
    failureCount := 0
    callCount := 0
    cancelled := false }

/-- C3: the semaphore keeps the number of in-flight units at or below
`limit` in every reachable state, and (given `1 ≤ limit ≤ L`) a schedule
exists that actually reaches `limit` units in flight, so the ceiling is
exactly `limit`. -/
theorem RunBatchSearch_concurrency_bound
    (queries : List String) (limit : Nat)
    (call : String → Except ErrorDetail SearchResult) :
    (∀ (b : Bool) cs s,
        exec queries limit call cs (initState queries b) = some s →
        s.inFlight.length ≤ limit)
    ∧ (1 ≤ limit → limit ≤ queries.length →
        ∃ cs s,
          exec queries limit call cs (initState queries false) = some s ∧
          s.inFlight.length = limit) := by
  constructor
  · intro b cs s hx
    exact (runInv_of_exec hx).flightCap
  · intro h1 h2
    obtain ⟨s2, hx, hlen⟩ := @exec_replicate_launch queries limit call limit
      (initState queries false)
      (by simp only [initState]; omega)
      (by simp only [initState, List.length_nil]; omega)
    refine ⟨List.replicate limit Choice.launch, s2, hx, ?_⟩
    rw [hlen]
    simp only [initState, List.length_nil]
    omega

theorem RunBatchSearch_concurrency_bound_witness :
    exec sampleQueries 2 sampleCall [Choice.launch]
      (initState sampleQueries false) = some sampleMid
    ∧ sampleMid.inFlight.length ≤ 2
    ∧ (1 ≤ 2) ∧ (2 ≤ sampleQueries.length)
    ∧ ∃ cs s,
        exec sampleQueries 2 sampleCall cs (initState sampleQueries false) =
          some s ∧ s.inFlight.length = 2 :=
  ⟨rfl,
   (RunBatchSearch_concurrency_bound sampleQueries 2 sampleCall).1 false
     [Choice.launch] sampleMid rfl,
   by decide, by decide,
   (RunBatchSearch_concurrency_bound sampleQueries 2 sampleCall).2
     (by decide) (by decide)⟩

/-- C9: in every terminal run, the entry at position `i` carries
`QueryIndex = i` and exactly one of its `Result` and `Error` fields is
set, and the set field matches the outcome of the unit's own
`performSearch` call (under the cancellation flag `b2` it observed):
`Result` holds the payload when the call succeeded, `Error` holds the
error when it failed — a well-formed tagged union keyed by the input
position. -/
theorem RunBatchSearch_tagged_union
    (queries : List String) (limit : Nat)
    (call : String → Except ErrorDetail SearchResult) (b : Bool)
    (cs : List Choice) (s : RunState)
    (hx : exec queries limit call cs (initState queries b) = some s)
    (ht : IsTerminal queries s) :
    ∀ i, i < queries.length →
      ∃ b2 qr, s.results.getD i none = some qr ∧ qr.queryIndex = i ∧
        (qr.result.isSome ↔ qr.error = none) ∧
        (∀ r, unitOutcome call b2 (queries.getD i "") = Except.ok r →
          qr.result = some r ∧ qr.error = none) ∧
        (∀ e, unitOutcome call b2 (queries.getD i "") = Except.error e →
          qr.result = none ∧ qr.error = some e) := by
  intro i hi
  obtain ⟨b2, hb⟩ := terminal_slots (runInv_of_exec hx) ht i hi
  refine ⟨b2, outcomeToResult i (unitOutcome call b2 (queries.getD i "")),
    hb, ?_, ?_, ?_, ?_⟩
  · cases unitOutcome call b2 (queries.getD i "") <;> rfl
  · cases unitOutcome call b2 (queries.getD i "") <;>
      simp [outcomeToResult]
  · intro r hr
    rw [hr]
    exact ⟨rfl, rfl⟩
  · intro e he
    rw [he]
    exact ⟨rfl, rfl⟩

theorem RunBatchSearch_tagged_union_witness :
    ∃ b2 qr, sampleFinal.results.getD 0 none = some qr ∧
      qr.queryIndex = 0 ∧
      (qr.result.isSome ↔ qr.error = none) ∧
      (∀ r, unitOutcome sampleCall b2 (sampleQueries.getD 0 "") =
          Except.ok r → qr.result = some r ∧ qr.error = none) ∧
      (∀ e, unitOutcome sampleCall b2 (sampleQueries.getD 0 "") =
          Except.error e → qr.result = none ∧ qr.error = some e) :=
  RunBatchSearch_tagged_union sampleQueries 1 sampleCall false
    sampleSchedule sampleFinal rfl (by decide) 0 (by decide)

/-- C6: on the empty input the initial state is already terminal
(`RunBatchSearch` returns immediately), and every reachable state has an
empty outcome collection, zero counters, and zero finished calls. -/
theorem RunBatchSearch_empty_input (limit : Nat)
    (call : String → Except ErrorDetail SearchResult) (b : Bool) :
    IsTerminal [] (initState [] b)
    ∧ ∀ cs s, exec [] limit call cs (initState [] b) = some s →
        s.results = [] ∧ s.successCount = 0 ∧ s.failureCount = 0 ∧
        s.callCount = 0 := by
  constructor
  · exact ⟨rfl, rfl⟩
  · intro cs s hx
    have hI := runInv_of_exec hx
    have h0 : s.results = [] := by
      have := hI.resLen
      simp only [List.length_nil] at this
      exact List.eq_nil_of_length_eq_zero this
    have hnext : s.nextToLaunch = 0 := by
      have := hI.nextLe
      simp only [List.length_nil] at this
      omega
    have hcnt := hI.counters
    have hcalls := hI.calls
    rw [hnext] at hcnt
    exact ⟨h0, by omega, by omega, by omega⟩

theorem RunBatchSearch_empty_input_witness :
    IsTerminal [] (initState [] false)
    ∧ ((initState [] false).results = []
       ∧ (initState [] false).successCount = 0
       ∧ (initState [] false).failureCount = 0
       ∧ (initState [] false).callCount = 0) :=
  ⟨(RunBatchSearch_empty_input 1 sampleCall false).1,
   (RunBatchSearch_empty_input 1 sampleCall false).2 []
     (initState [] false) rfl⟩

/-- C5 (amended): the launch guard never consults the cancellation flag
(the loop keeps admitting new units after cancellation fires, exactly when
inputs remain and a slot is free); a unit completing under a cancelled
context records the cancellation-classified failure in its own slot; and
every terminal run, cancelled or not, has an outcome at every input
position. -/
theorem RunBatchSearch_cancellation
    (queries : List String) (limit : Nat)
    (call : String → Except ErrorDetail SearchResult) :
    (∀ s, (step queries limit call Choice.launch s).isSome ↔
        (s.nextToLaunch < queries.length ∧ s.inFlight.length < limit))
    ∧ (∀ j s, s.cancelled = true → j < s.results.length →
        (completeUnit queries call j s).results.getD j none =
          some { queryIndex := j, result := none,
                 error := some (ErrorDetail.executeFailed "context canceled") })
    ∧ (∀ (b : Bool) cs s,
        exec queries limit call cs (initState queries b) = some s →
        IsTerminal queries s →
        ∀ i, i < queries.length → (s.results.getD i none).isSome) := by
  refine ⟨?_, ?_, ?_⟩
  · intro s
    simp only [step]
    split
    · rename_i hg
      simpa using hg
    · rename_i hg
      exact iff_of_false (by simp) hg
  · intro j s hc hj
    rw [completeUnit_results, hc, unitOutcome_true,
      List.getD_eq_getElem?_getD, List.getElem?_set_eq_of_lt _ hj]
    rfl
  · intro b cs s hx ht i hi
    obtain ⟨b2, hb⟩ := terminal_slots (runInv_of_exec hx) ht i hi
    rw [hb]
    rfl

/-- The state reached on `sampleQueries` (limit 1) after the first unit has
finished and the context has then fired. -/
def cancelMid : RunState :=
  { nextToLaunch := 1
    inFlight := []
    results := [some { queryIndex := 0, result := none, error := some sampleErr },
                none]
    successCount := 0
    failureCount := 1
    callCount := 1
    cancelled := true }

/-- C5 counterexample: after cancellation has fired mid-run the dispatcher
still admits a new unit of work — the second launch succeeds from the
cancelled state `cancelMid`, refuting "admits no new units but waits". -/
theorem RunBatchSearch_cancellation_counterexample :
    exec sampleQueries 1 sampleCall
      [Choice.launch, Choice.complete 0, Choice.cancel]
      (initState sampleQueries false) = some cancelMid
    ∧ cancelMid.cancelled = true
    ∧ step sampleQueries 1 sampleCall Choice.launch cancelMid =
        some { cancelMid with nextToLaunch := 2, inFlight := [1] } :=
  ⟨rfl, rfl, rfl⟩

/-- C4 (amended): `RunBatchSearch` performs no entry validation at all.
With a context already cancelled at entry it still admits and runs every
unit — a terminal run records zero successes, one cancellation failure per
input, and hence made one call per input rather than none.  With
`limit = 0` (the only `limit < 1` a channel capacity admits without
panicking) and a nonempty input, the first admission blocks forever: no
reachable state is terminal, so the run deadlocks instead of refusing. -/
theorem RunBatchSearch_no_entry_validation
    (queries : List String) (limit : Nat)
    (call : String → Except ErrorDetail SearchResult) :
    (∀ cs s, exec queries limit call cs (initState queries true) = some s →
        IsTerminal queries s →
        s.successCount = 0 ∧ s.failureCount = queries.length ∧
        ∀ i, i < queries.length →
          s.results.getD i none =
            some { queryIndex := i, result := none,
                   error := some (ErrorDetail.executeFailed "context canceled") })
    ∧ (queries ≠ [] →
        ∀ cs s, exec queries 0 call cs (initState queries false) = some s →
          ¬ IsTerminal queries s) := by
  constructor
  · intro cs s hx ht
    have hP : RunInv queries limit call s ∧ CancelSlots s := by
      refine exec_induct
        (fun t => RunInv queries limit call t ∧ CancelSlots t) ?_ cs
        (initState queries true) s
        ⟨runInv_init queries limit call true, rfl, rfl, ?_⟩ hx
      · intro c t t2 hPt hs
        exact ⟨step_runInv hPt.1 hs, step_cancelSlots hPt.1 hPt.2 hs⟩
      · intro i hi _
        simp [initState] at hi
    obtain ⟨hI, hct, hsc, hslots⟩ := hP
    have h1 := hI.counters
    rw [ht.1, ht.2] at h1
    simp only [List.length_nil] at h1
    refine ⟨hsc, by omega, ?_⟩
    intro i hi
    exact hslots i (by rw [ht.1]; omega)
      (by rw [ht.2]; exact List.not_mem_nil i)
  · intro hne cs s hx ht
    have hP : s.nextToLaunch = 0 ∧ s.inFlight = [] := by
      refine exec_induct (fun t => t.nextToLaunch = 0 ∧ t.inFlight = []) ?_
        cs (initState queries false) s ⟨rfl, rfl⟩ hx
      intro c t t2 hPt hs
      cases c with
      | launch =>
        simp only [step] at hs
        split at hs
        · rename_i hg
          exact absurd hg.2 (by omega)
        · exact Option.noConfusion hs
      | complete j =>
        simp only [step] at hs
        split at hs
        · rename_i hj
          rw [hPt.2] at hj
          exact absurd hj (List.not_mem_nil j)
        · exact Option.noConfusion hs
      | cancel =>
        simp only [step] at hs
        injection hs with hs
        subst hs
        exact hPt
    have h0 : queries.length = 0 := by rw [← ht.1, hP.1]
    exact hne (List.eq_nil_of_length_eq_zero h0)

/-- The terminal state of running `sampleQueries` under a context that was
already cancelled at entry. -/
def cancelledFinal : RunState :=
  { nextToLaunch := 2
    inFlight := []
    results :=
      [some { queryIndex := 0, result := none,
              error := some (ErrorDetail.executeFailed "context canceled") },
       some { queryIndex := 1, result := none,
              error := some (ErrorDetail.executeFailed "context canceled") }]
    successCount := 0
    failureCount := 2
    callCount := 2
    cancelled := true }

theorem RunBatchSearch_no_entry_validation_witness :
    exec sampleQueries 1 sampleCall sampleSchedule
      (initState sampleQueries true) = some cancelledFinal
    ∧ IsTerminal sampleQueries cancelledFinal
    ∧ cancelledFinal.successCount = 0
    ∧ cancelledFinal.failureCount = sampleQueries.length
    ∧ cancelledFinal.results.getD 0 none =
        some { queryIndex := 0, result := none,
               error := some (ErrorDetail.executeFailed "context canceled") }
    ∧ sampleQueries ≠ []
    ∧ ¬ IsTerminal sampleQueries (initState sampleQueries false) :=
  ⟨rfl, by decide,
   ((RunBatchSearch_no_entry_validation sampleQueries 1 sampleCall).1
     sampleSchedule cancelledFinal rfl (by decide)).1,
   ((RunBatchSearch_no_entry_validation sampleQueries 1 sampleCall).1
     sampleSchedule cancelledFinal rfl (by decide)).2.1,
   ((RunBatchSearch_no_entry_validation sampleQueries 1 sampleCall).1
     sampleSchedule cancelledFinal rfl (by decide)).2.2 0 (by decide),
   by decide,
   (RunBatchSearch_no_entry_validation sampleQueries 1 sampleCall).2
     (by decide) [] (initState sampleQueries false) rfl⟩

/-- A one-query input for the C4 counterexample. -/
def oneQuery : List String := ["a"]

/-- The terminal state of running `oneQuery` under an already-cancelled
context. -/
def oneCancelledFinal : RunState :=
  { nextToLaunch := 1
    inFlight := []
    results :=
      [some { queryIndex := 0, result := none,
              error := some (ErrorDetail.executeFailed "context canceled") }]
    successCount := 0
    failureCount := 1
    callCount := 1
    cancelled := true }

/-- C4 counterexample: with the cancellation signal already fired at entry,
`RunBatchSearch` does not refuse to start — it admits the unit, the unit
executes (one `performSearch` call returns), and the run completes
normally, contradicting "no units of work executed and no call made". -/
theorem RunBatchSearch_entry_validation_counterexample :
    exec oneQuery 1 sampleCall [Choice.launch, Choice.complete 0]
      (initState oneQuery true) = some oneCancelledFinal
    ∧ oneCancelledFinal.callCount = 1
    ∧ IsTerminal oneQuery oneCancelledFinal :=
  ⟨rfl, rfl, by decide⟩

theorem queryTriple_length (r : Root) (ts : List QueryShape)
    (h : queryTriple r = some ts) : ts.length = 3 := by
  unfold queryTriple at h
  rcases hc : r.bklctrcb.geometry.coordinates with _ | ⟨c0, _ | ⟨c1, tl⟩⟩ <;>
    rw [hc] at h
  · exact Option.noConfusion h
  · exact Option.noConfusion h
  · injection h with h
    subst h
    rfl

theorem queryTriple_isSome (r : Root)
    (h : 2 ≤ r.bklctrcb.geometry.coordinates.length) :
    (queryTriple r).isSome := by
  unfold queryTriple
  rcases hc : r.bklctrcb.geometry.coordinates with _ | ⟨c0, _ | ⟨c1, tl⟩⟩
  · rw [hc] at h
    simp at h
  · rw [hc] at h
    simp at h
  · rfl

theorem makeQueriesFrom_length (locations : List Root) (pick : Nat → Nat) :
    ∀ n i qs, makeQueriesFrom locations pick i n = some qs →
      qs.length = 3 * n := by
  intro n
  induction n with
  | zero =>
    intro i qs h
    injection h with h
    subst h
    rfl
  | succ n ih =>
    intro i qs h
    unfold makeQueriesFrom at h
    split at h
    · rename_i h0
      cases hq : queryTriple
          (locations.get ⟨pick i % locations.length, Nat.mod_lt _ h0⟩) with
      | none => rw [hq] at h; exact Option.noConfusion h
      | some triple =>
        rw [hq] at h
        cases hr : makeQueriesFrom locations pick (i + 1) n with
        | none => rw [hr] at h; exact Option.noConfusion h
        | some rest =>
          rw [hr] at h
          injection h with h
          subst h
          rw [List.length_append, queryTriple_length _ _ hq,
            ih (i + 1) rest hr]
          ring
    · exact Option.noConfusion h

theorem makeQueriesFrom_isSome (locations : List Root) (pick : Nat → Nat)
    (h0 : 0 < locations.length)
    (h2 : ∀ r ∈ locations, 2 ≤ r.bklctrcb.geometry.coordinates.length) :
    ∀ n i, ∃ qs, makeQueriesFrom locations pick i n = some qs := by
  intro n
  induction n with
  | zero =>
    intro i
    exact ⟨[], rfl⟩
  | succ n ih =>
    intro i
    have hmem : locations.get
        ⟨pick i % locations.length, Nat.mod_lt _ h0⟩ ∈ locations :=
      List.get_mem locations _ _
    have hts := queryTriple_isSome _ (h2 _ hmem)
    obtain ⟨triple, htr⟩ := Option.isSome_iff_exists.mp hts
    obtain ⟨rest, hr⟩ := ih (i + 1)
    refine ⟨triple ++ rest, ?_⟩
    unfold makeQueriesFrom
    rw [dif_pos h0, htr, hr]

/-- A well-formed sample location (two coordinates). -/
def sampleRoot : Root :=
  { bklctrcb :=
      { geometry := { coordinates := [0.0, 1.0] }
        relationship := "intersects" } }

/-- A malformed sample location (a single coordinate, so `coords[1]`
panics). -/
def badRoot : Root :=
  { bklctrcb :=
      { geometry := { coordinates := [0.0] }
        relationship := "intersects" } }

/-- C7 (amended): `GenerateQueries` performs no divisibility check; on a
usable location pool it succeeds for every requested count `n` and produces
exactly `3 * (n / 3)` query blobs (Go integer division) — equal to `n` only
when `n` is a multiple of 3. -/
theorem GenerateQueries_truncates
    (locations : List Root) (pick : Nat → Nat) (n : Nat)
    (h0 : 0 < locations.length)
    (h2 : ∀ r ∈ locations, 2 ≤ r.bklctrcb.geometry.coordinates.length) :
    ∃ qs, GenerateQueries locations pick n = some qs ∧
      qs.length = 3 * (n / 3) := by
  obtain ⟨qs, hqs⟩ := makeQueriesFrom_isSome locations pick h0 h2 (n / 3) 0
  exact ⟨qs, hqs, makeQueriesFrom_length locations pick (n / 3) 0 qs hqs⟩

theorem GenerateQueries_truncates_witness :
    0 < ([sampleRoot] : List Root).length
    ∧ ∃ qs, GenerateQueries [sampleRoot] (fun _ => 0) 10 = some qs ∧
        qs.length = 3 * (10 / 3) :=
  ⟨by decide,
   GenerateQueries_truncates [sampleRoot] (fun _ => 0) 10 (by decide)
     (by intro r hr
         simp at hr
         subst hr
         decide)⟩

/-- C7 counterexample: the requested count 10 is not divisible by 3, yet
`GenerateQueries` does not reject it — it succeeds and produces 9 blobs,
not 10. -/
theorem GenerateQueries_no_divisibility_check :
    ¬ (3 ∣ 10)
    ∧ (GenerateQueries [sampleRoot] (fun _ => 0) 10).isSome
    ∧ (GenerateQueries [sampleRoot] (fun _ => 0) 10).map List.length =
        some 9 :=
  ⟨by decide, rfl, rfl⟩

/-- C10 (amended): under the precondition (non-empty pool, every location
with at least two coordinates) `makeQueries` is panic-free for every count
and every random stream; for a count of at least 1 it panics
(`rand.Intn(0)`) on an empty pool, and panics (coordinate indexing) when
the location selected in the first iteration has fewer than two
coordinates.  (For a count of 0 it returns the empty slice even on an
empty or malformed pool — see the counterexample.) -/
theorem makeQueries_panic_conditions
    (locations : List Root) (pick : Nat → Nat) (n : Nat) :
    ((0 < locations.length ∧
        ∀ r ∈ locations, 2 ≤ r.bklctrcb.geometry.coordinates.length) →
      (makeQueries locations pick n).isSome)
    ∧ (locations = [] → 1 ≤ n → makeQueries locations pick n = none)
    ∧ (∀ r, locations[pick 0 % locations.length]? = some r →
        r.bklctrcb.geometry.coordinates.length < 2 → 1 ≤ n →
        makeQueries locations pick n = none) := by
  refine ⟨?_, ?_, ?_⟩
  · rintro ⟨h0, h2⟩
    obtain ⟨qs, hqs⟩ := makeQueriesFrom_isSome locations pick h0 h2 n 0
    rw [makeQueries, hqs]
    rfl
  · rintro rfl hn
    cases n with
    | zero => omega
    | succ k =>
      simp [makeQueries, makeQueriesFrom]
  · intro r hr hlen hn
    cases n with
    | zero => omega
    | succ k =>
      obtain ⟨hidx, hget⟩ := List.getElem?_eq_some.mp hr
      have h0 : 0 < locations.length := by omega
      have hgr : locations.get
          ⟨pick 0 % locations.length, Nat.mod_lt _ h0⟩ = r := by
        rw [List.get_eq_getElem]
        exact hget
      have hq : queryTriple r = none := by
        unfold queryTriple
        rcases hc : r.bklctrcb.geometry.coordinates with
            _ | ⟨c0, _ | ⟨c1, tl⟩⟩
        · rfl
        · rfl
        · rw [hc] at hlen
          simp at hlen
          omega
      unfold makeQueries makeQueriesFrom
      rw [dif_pos h0, hgr, hq]

theorem makeQueries_panic_conditions_witness :
    (makeQueries [sampleRoot] (fun _ => 0) 2).isSome
    ∧ makeQueries [] (fun _ => 0) 1 = none
    ∧ makeQueries [badRoot] (fun _ => 0) 1 = none :=
  ⟨(makeQueries_panic_conditions [sampleRoot] (fun _ => 0) 2).1
     ⟨by decide,
      by intro r hr
         simp at hr
         subst hr
         decide⟩,
   (makeQueries_panic_conditions [] (fun _ => 0) 1).2.1 rfl (by decide),
   (makeQueries_panic_conditions [badRoot] (fun _ => 0) 1).2.2 badRoot rfl
     (by decide) (by decide)⟩

/-- C10 counterexample: with an empty (hence precondition-violating) pool
but a count of 0, `makeQueries` returns the empty slice instead of
aborting — the loop body, and with it both panic sites, never runs. -/
theorem makeQueries_zero_count_returns :
    makeQueries [] (fun _ => 0) 0 = some [] := rfl

/-- `cancelMid` after the second unit has also been launched (the state the
C5 analysis reaches after cancellation). -/
def cancelMid2 : RunState :=
  { nextToLaunch := 2
    inFlight := [1]
    results := [some { queryIndex := 0, result := none, error := some sampleErr },
                none]
    successCount := 0
    failureCount := 1
    callCount := 1
    cancelled := true }

theorem RunBatchSearch_cancellation_witness :
    (step sampleQueries 1 sampleCall Choice.launch cancelMid).isSome
    ∧ (completeUnit sampleQueries sampleCall 1 cancelMid2).results.getD 1
        none =
        some { queryIndex := 1, result := none,
               error := some (ErrorDetail.executeFailed "context canceled") }
    ∧ (cancelledFinal.results.getD 1 none).isSome :=
  ⟨((RunBatchSearch_cancellation sampleQueries 1 sampleCall).1
      cancelMid).mpr ⟨by decide, by decide⟩,
   (RunBatchSearch_cancellation sampleQueries 1 sampleCall).2.1 1 cancelMid2
     rfl (by decide),
   (RunBatchSearch_cancellation sampleQueries 1 sampleCall).2.2 true
     sampleSchedule cancelledFinal rfl (by decide) 1 (by decide)⟩
